import Mathlib

/-!
Verification development for the go-domaindb repository.

The Go sources are shallowly embedded: Go strings become `List Char`
(Go iterates runes; every string handled by the claims is treated as a
rune sequence), maps become association lists, `(T, error)` returns
become `Except Err T`, and the storage / network environment becomes
explicit data threaded through the functions.  Each definition mirrors
one Go function and is named after it.
-/

namespace DomainDb

/-- Character-list strings, mirroring Go strings (as rune sequences). -/
abbrev Str := List Char

/-- The left brace character, written via its code point. -/
def lbrace : Char := Char.ofNat 123

/-- The right brace character, written via its code point. -/
def rbrace : Char := Char.ofNat 125

/-- Error values.  Each constructor stands for one `error` the Go code can
produce; `wrapped` models `fmt.Errorf("...: %w", err)` with a numeric tag
standing in for the format string. -/
inductive Err where
  | emptyDomain
  | emptyAfterStrip
  | noLabels
  | emptyLabel
  | idnaNonAscii
  | labelLen (l : Str)
  | labelChars (l : Str)
  | domainTooLong
  | noSuchDatabase (name : Str)
  | noCacheAndNoDownload
  | dataSourceNoSource
  | allUrlsFailed
  | urlErr (msg : Str)
  | joined (es : List Err)
  | parseFailures (lines : List Str)
  | ioErr (msg : Str)
  | dbNameTooLong
  | badJson
  | enoent
  | wrapped (tag : Nat) (e : Err)

/-! ## Normalizer (normalize package, `NormalizeDomain`) -/

/-- Code points Go's `unicode.IsSpace` accepts (the White_Space property);
used by `strings.TrimSpace`. -/
def goSpaceCodes : List Nat :=
  [0x09, 0x0A, 0x0B, 0x0C, 0x0D, 0x20, 0x85, 0xA0, 0x1680,
   0x2000, 0x2001, 0x2002, 0x2003, 0x2004, 0x2005, 0x2006, 0x2007,
   0x2008, 0x2009, 0x200A, 0x2028, 0x2029, 0x202F, 0x205F, 0x3000]

/-- `unicode.IsSpace` for a single rune. -/
def goIsSpace (c : Char) : Bool := goSpaceCodes.contains c.toNat

/-- `strings.TrimSpace`: drop the runs of whitespace runes at both ends. -/
def trimSpace (s : Str) : Str :=
  ((s.dropWhile goIsSpace).reverse.dropWhile goIsSpace).reverse

/-- The `dotReplacer` of `NewDomainNormalizer`: maps the Unicode dot-like
runes U+3002, U+FF0E, U+FF61 to an ASCII dot.  Each pattern of the Go
`strings.Replacer` is a single rune, so the replacer is a per-rune map. -/
def dotReplaceChar (c : Char) : Char :=
  if c.toNat = 0x3002 ∨ c.toNat = 0xFF0E ∨ c.toNat = 0xFF61 then '.' else c

/-- The rune set removed by `stripInvisibleChars`: ASCII controls and DEL,
zero-width characters and joiners, and basic bidi controls. -/
def isInvisibleChar (c : Char) : Bool :=
  c.toNat ≤ 0x1F ∨ c.toNat = 0x7F ∨
  c.toNat = 0x200B ∨ c.toNat = 0x200C ∨ c.toNat = 0x200D ∨
  c.toNat = 0x2060 ∨ c.toNat = 0xFEFF ∨
  (0x202A ≤ c.toNat ∧ c.toNat ≤ 0x202E)

/-- `stripInvisibleChars`: keep only the runes outside the invisible set. -/
def stripInvisibleChars (s : Str) : Str := s.filter (fun c => !isInvisibleChar c)

/-- ASCII lowercasing of one character, the ASCII case of Go's
`strings.ToLower` (all strings reaching it in the model are ASCII). -/
def asciiToLower (c : Char) : Char :=
  if 'A' ≤ c ∧ c ≤ 'Z' then Char.ofNat (c.toNat + 32) else c

/-- Model of the external `golang.org/x/net/idna` profile's `ToASCII`
(Map-for-Lookup + Validate-for-Registration, STD3).  ASCII input is mapped
to lowercase and returned; non-ASCII input is rejected by the model (the
real library converts it to Punycode), which is conservative and
sufficient for the ASCII-domain claims proved below. -/
def idnaToASCII (s : Str) : Except Err Str :=
  if s.all (fun c => c.toNat < 0x80) then .ok (s.map asciiToLower)
  else .error .idnaNonAscii

/-- `strings.Split(s, sep)` for a one-character separator: the list of
pieces between separator occurrences (always one more piece than
separators). -/
def splitOnChar (sep : Char) : Str → List Str
  | [] => [[]]
  | c :: rest =>
    if c = sep then [] :: splitOnChar sep rest
    else
      match splitOnChar sep rest with
      | [] => [[c]]
      | p :: ps => (c :: p) :: ps

/-- `strings.Contains(s, "..")`: two adjacent dots occur somewhere. -/
def containsDoubleDot : Str → Bool
  | [] => false
  | [_] => false
  | a :: b :: rest => (a = '.' ∧ b = '.') ∨ containsDoubleDot (b :: rest)

/-- The `for strings.HasPrefix(s, ".")` loop of `NormalizeDomain`: removes
the whole leading run of dots. -/
def dropLeadingDots (s : Str) : Str := s.dropWhile (· = '.')

/-- The `for strings.HasSuffix(s, ".")` loop of `NormalizeDomain`: removes
the whole trailing run of dots. -/
def dropTrailingDots (s : Str) : Str := (s.reverse.dropWhile (· = '.')).reverse

/-- `isAlnum`: lowercase ASCII letter or digit (byte-level check). -/
def isAlnum (c : Char) : Bool := ('a' ≤ c ∧ c ≤ 'z') ∨ ('0' ≤ c ∧ c ≤ '9')

/-- One character of the LDH alphabet: `a-z`, `0-9` or `-`. -/
def isLDHChar (c : Char) : Bool := isAlnum c ∨ c = '-'

/-- `isLDHOrPunycode`: the label is nonempty, ends alphanumeric, starts
alphanumeric unless it carries the `xn--` prefix, and uses only LDH
characters. -/
def isLDHOrPunycode (l : Str) : Bool :=
  match l with
  | [] => false
  | c :: _ =>
    (match l.getLast? with
     | some z => isAlnum z
     | none => false) &&
    (isAlnum c || decide (l.take 4 = ['x', 'n', '-', '-'])) &&
    l.all isLDHChar

/-- The per-label length and character checks at the end of
`NormalizeDomain` (first failing label determines the error, mirroring the
Go loop). -/
def checkLabels : List Str → Except Err Unit
  | [] => .ok ()
  | l :: rest =>
    if l.length = 0 ∨ l.length > 63 then .error (.labelLen l)
    else if !isLDHOrPunycode l then .error (.labelChars l)
    else checkLabels rest

/-- `DomainNormalizer.NormalizeDomain`, step for step:
trim whitespace, map dot-likes, strip invisibles, remove one trailing dot,
strip any remaining leading and trailing dots (the Go code strips them in
`for HasPrefix`/`HasSuffix` loops rather than rejecting), reject interior
empty labels, apply the IDNA profile's `ToASCII`, lowercase, and validate
label and total lengths. -/
def normalizeDomain (input : Str) : Except Err Str :=
  let s := trimSpace input
  if s = [] then .error .emptyDomain
  else
    let s := s.map dotReplaceChar
    let s := stripInvisibleChars s
    if s = [] then .error .emptyAfterStrip
    else
      let s := if s.getLast? = some '.' then s.dropLast else s
      if s = [] then .error .noLabels
      else
        let s := dropLeadingDots s
        let s := dropTrailingDots s
        if containsDoubleDot s then .error .emptyLabel
        else if (splitOnChar '.' s).any (· = []) then .error .emptyLabel
        else
          match idnaToASCII s with
          | .error e => .error (.wrapped 1 e)
          | .ok a =>
            let ascii := a.map asciiToLower
            match checkLabels (splitOnChar '.' ascii) with
            | .error e => .error e
            | .ok _ =>
              if ascii.length > 253 then .error .domainTooLong
              else .ok ascii

/-- `NormalizeDomainName` (the deprecated package-level wrapper used by the
engine): constructs a normalizer and delegates to `NormalizeDomain`. -/
def normalizeDomainName (domain : Str) : Except Err Str := normalizeDomain domain

/-! ## Byte streams and the scanner -/

/-- An `io.ReadCloser` as the loader observes it: the bytes delivered
before the stream terminates, and the terminal status (`none` = clean EOF,
`some e` = the error the next read reports, e.g. a pipe closed with
`CloseWithError`). -/
structure ByteStream where
  data : Str
  readErr : Option Err

/-- What one further `Read` at offset `pos` of an exhausted position
returns. -/
inductive ReadRes where
  | byte (c : Char)
  | eofRes
  | errRes (e : Err)

/-- Reading a `ByteStream` at a position: bytes while data remains, then
the terminal status. -/
def readAt (s : ByteStream) (pos : Nat) : ReadRes :=
  match s.data[pos]? with
  | some c => .byte c
  | none =>
    match s.readErr with
    | some e => .errRes e
    | none => .eofRes

/-- Remove one trailing carriage return (`bufio.ScanLines` drops it). -/
def dropCR (l : Str) : Str :=
  if l.getLast? = some '\r' then l.dropLast else l

/-- The token sequence `bufio.Scanner` with `ScanLines` produces from the
delivered bytes: split at newlines, drop a final empty token when the data
ends in a newline, and strip one trailing CR per line.  Tokens buffered
before a read error are still delivered; the error itself is only visible
through `Scanner.Err`. -/
def scanLinesOf (data : Str) : List Str :=
  if data = [] then []
  else
    let pieces := splitOnChar '\n' data
    let pieces := if pieces.getLast? = some [] then pieces.dropLast else pieces
    pieces.map dropCR

/-! ## Loader (`loadDomainsFromReader`) -/

/-- `maxFailures` of `loadDomainsFromReader`. -/
def maxFailures : Nat := 10

/-- Go map insertion (`domains[normalized] = struct{}{}`) on the
set-of-domains representation. -/
def insertDomain (d : Str) (set : List Str) : List Str :=
  if set.contains d then set else d :: set

/-- The loop state of `loadDomainsFromReader`: the fresh set being built,
the recorded failures (the offending lines stand in for the wrapped
errors), and the good-line count. -/
structure ScanAcc where
  domains : List Str
  failures : List Str
  good : Nat

/-- The initial loop state. -/
def scanInit : ScanAcc := ⟨[], [], 0⟩

/-- The scan loop of `loadDomainsFromReader`: the loop condition
`scanner.Scan() && len(failures) < maxFailures` stops consuming lines once
the failure cap is reached; empty lines and `#` comments are skipped;
every other line is normalized and either inserted or recorded as a
failure. -/
def scanLoop : List Str → ScanAcc → ScanAcc
  | [], acc => acc
  | line :: rest, acc =>
    if acc.failures.length ≥ maxFailures then acc
    else if line = [] ∨ line.head? = some '#' then scanLoop rest acc
    else
      match normalizeDomainName line with
      | .error _ => scanLoop rest { acc with failures := acc.failures ++ [line] }
      | .ok nd =>
        scanLoop rest { acc with domains := insertDomain nd acc.domains, good := acc.good + 1 }

/-- The pure core of `loadDomainsFromReader`: scan all lines, then fail
with the aggregate of the recorded failures when they outnumber the good
lines, otherwise produce the fresh set.  The scanner's terminal read
status is not part of the result because the Go code never inspects
`scanner.Err()`. -/
def loadDomainsCore (lines : List Str) : Except Err (List Str) :=
  let acc := scanLoop lines scanInit
  if acc.failures.length > acc.good then .error (.parseFailures acc.failures)
  else .ok acc.domains

/-! ## Data sources and the source opener (`openDataSource`) -/

/-- A `DataSource` together with the outcome its sources would produce in
the modelled environment: `get` is the `Get` callable's result when
present; `urlResults` gives, for each configured URL in order, either the
fetched body or the failure (HTTP error, non-200 status, or copy error). -/
structure DataSource where
  get : Option (Except Err ByteStream)
  urlResults : List (Except Err Str)

/-- The failure recorded for one URL, when it failed. -/
def errOf : Except Err Str → Option Err
  | .error e => some e
  | .ok _ => none

/-- The bytes the URL producer goroutine writes into the pipe: each URL's
body (nothing for a failed URL) followed by the unconditional newline
separator. -/
def urlPipeData (results : List (Except Err Str)) : Str :=
  (results.map (fun r => (match r with | .ok b => b | .error _ => []) ++ ['\n'])).flatten

/-- The state in which the URL producer goroutine leaves the pipe: if every
URL failed, the pipe is closed with the per-URL errors joined with the
`ErrAllUrlsFailed` sentinel; otherwise it is closed cleanly. -/
def pipeOfUrlResults (results : List (Except Err Str)) : ByteStream :=
  { data := urlPipeData results
    readErr :=
      if (results.filterMap errOf).length = results.length then
        some (.joined ((results.filterMap errOf) ++ [.allUrlsFailed]))
      else none }

/-- `openDataSource`: `Get` takes precedence and its result passes through
(failures wrapped); otherwise a nonempty URL list yields the producer
pipe; otherwise `ErrDataSourceNoSource`. -/
def openDataSource (src : DataSource) : Except Err ByteStream :=
  match src.get with
  | some (.error e) => .error (.wrapped 2 e)
  | some (.ok s) => .ok s
  | none =>
    if src.urlResults.length > 0 then .ok (pipeOfUrlResults src.urlResults)
    else .error .dataSourceNoSource

/-! ## Engine state (`DomainDb`, `dbSrcMap`) -/

/-- One `dbSrcMap` entry: the in-memory domain set and its source spec
(the read-preferring mutex guards only the set swap, which the sequential
model renders as plain replacement). -/
structure DbEntry where
  domains : List Str
  src : DataSource

/-- The engine's registry: the `dbs` map as an association list; entries
are created at construction and never added or removed. -/
structure EngineState where
  dbs : List (Str × DbEntry)

/-- Registry lookup (`s.dbs[name]`). -/
def lookupDb (st : EngineState) (name : Str) : Option DbEntry :=
  (st.dbs.find? (fun p => p.1 = name)).map (·.2)

/-- Replace the domain set of an existing entry (the write-locked swap
`data.Domains = domains`); absent names are untouched (the Go code would
have panicked earlier on the nil entry, and every caller checks presence). -/
def swapDomains (st : EngineState) (name : Str) (set : List Str) : EngineState :=
  ⟨st.dbs.map (fun p => if p.1 = name then (p.1, { p.2 with domains := set }) else p)⟩

/-- `loadDomainsFromReader` at the engine level: parse the scanner's lines
and, only on success, swap the fresh set into the named entry. -/
def loadDomainsFromReader (st : EngineState) (stream : ByteStream) (name : Str) :
    Except Err Unit × EngineState :=
  match loadDomainsCore (scanLinesOf stream.data) with
  | .error e => (.error e, st)
  | .ok set => (.ok (), swapDomains st name set)

/-- `DownloadAndLoadDatabase`: look up the entry, open its source, parse
the teed stream, and check the concurrent `WriteDatabase` outcome
(`writeRes`, read from `writeErrChan`) only after a successful parse.
Every failure before the parse completes leaves the registry unchanged;
a storage-write failure is reported after the in-memory swap already
happened. -/
def downloadAndLoadDatabase (writeRes : Except Err Unit) (st : EngineState) (name : Str) :
    Except Err Unit × EngineState :=
  match lookupDb st name with
  | none => (.error (.noSuchDatabase name), st)
  | some entry =>
    match openDataSource entry.src with
    | .error e => (.error (.wrapped 3 e), st)
    | .ok stream =>
      match loadDomainsFromReader st stream name with
      | (.error e, st') => (.error (.wrapped 4 e), st')
      | (.ok _, st') =>
        match writeRes with
        | .error e => (.error (.wrapped 5 e), st')
        | .ok _ => (.ok (), st')

/-- `DoesDbHaveDomain`: unknown names yield `NoSuchDatabaseError`;
otherwise the raw domain is normalized (errors propagated verbatim) and
the normalized form is probed in the entry's set under a read token. -/
def doesDbHaveDomain (st : EngineState) (dbName : Str) (domain : Str) :
    Except Err Bool :=
  match lookupDb st dbName with
  | none => .error (.noSuchDatabase dbName)
  | some entry =>
    match normalizeDomainName domain with
    | .error e => .error e
    | .ok nd => .ok (entry.domains.contains nd)

/-! ## Engine construction (`NewDomainDb`) -/

/-- The checkpoints document: the `Checkpoints` map of `AllCheckpoints` as
an association list `name ↦ LastUpdatedUnix`. -/
abbrev CheckDoc := List (Str × Int)

/-- Outcome of `storage.ReadCheckpoints` in the modelled environment. -/
inductive CpRead where
  | found (doc : CheckDoc)
  | notFound
  | failed (e : Err)

/-- Outcome of `storage.ReadDatabase(name)` in the modelled environment. -/
inductive DbRead where
  | found (s : ByteStream)
  | notFound
  | failed (e : Err)

/-- The storage and network environment `NewDomainDb` runs against. -/
structure InitEnv where
  cp : CpRead
  readDb : Str → DbRead
  writeDb : Str → Except Err Unit
  writeCp : Except Err Unit
  now : Int

/-- The registry as `NewDomainDb` builds it before `setup` runs: one entry
per configured source, each with `Domains: make(map[string]struct{})`,
i.e. the empty set.  In background-initialization mode this is exactly the
state the returned engine is queried against until the first load
finishes. -/
def initEngineState (cfg : List (Str × DataSource)) : EngineState :=
  ⟨cfg.map (fun p => (p.1, { domains := [], src := p.2 }))⟩

/-- State threaded through the `setup` closure's per-name loop: the body's
result so far, the registry, the `toClose` list of cached readers the
deferred cleanup will `Close` (the Go code appends the reader variable
even when `ReadDatabase` reported NotFound and left it nil — recorded here
as `none`), and the names whose `LastUpdatedUnix` was set after a
download. -/
structure SetupOut where
  res : Except Err Unit
  st : EngineState
  toClose : List (Option ByteStream)
  updated : List Str

/-- The per-name loop of `setup` (emaildb.go lines 185–223).  With
checkpoints on disk the cached database is read first: a non-NotFound
error aborts, NotFound appends the nil reader to `toClose` and falls
through to the download path, and a cached stream is appended and loaded.
Without checkpoints (or after NotFound) the name is downloaded unless
downloading is disabled. -/
def setupLoop (env : InitEnv) (had disableDl : Bool) :
    List (Str × DataSource) → SetupOut → SetupOut
  | [], out => out
  | (name, _) :: rest, out =>
    if had then
      match env.readDb name with
      | .failed e => { out with res := .error (.wrapped 6 e) }
      | .notFound =>
        let out := { out with toClose := out.toClose ++ [none] }
        if disableDl then { out with res := .error (.wrapped 7 .noCacheAndNoDownload) }
        else
          match downloadAndLoadDatabase (env.writeDb name) out.st name with
          | (.error e, st') => { out with res := .error (.wrapped 8 e), st := st' }
          | (.ok _, st') =>
            setupLoop env had disableDl rest
              { out with st := st', updated := out.updated ++ [name] }
      | .found s =>
        let out := { out with toClose := out.toClose ++ [some s] }
        match loadDomainsFromReader out.st s name with
        | (.error e, st') => { out with res := .error (.wrapped 9 e), st := st' }
        | (.ok _, st') => setupLoop env had disableDl rest { out with st := st' }
    else
      if disableDl then { out with res := .error (.wrapped 7 .noCacheAndNoDownload) }
      else
        match downloadAndLoadDatabase (env.writeDb name) out.st name with
        | (.error e, st') => { out with res := .error (.wrapped 8 e), st := st' }
        | (.ok _, st') =>
          setupLoop env had disableDl rest
            { out with st := st', updated := out.updated ++ [name] }

/-- The checkpoint merge after the loop (lines 230–245): every configured
name gets an entry, keeping the prior value (default 0) unless the name
was just downloaded, in which case `LastUpdatedUnix` becomes the current
time.  Entries for unknown names are retained. -/
def mergeCheckpoints (doc : CheckDoc) (cfg : List (Str × DataSource))
    (updated : List Str) (now : Int) : CheckDoc :=
  cfg.foldl
    (fun d p =>
      let prior := ((d.find? (fun q => q.1 = p.1)).map (·.2)).getD 0
      let v := if updated.contains p.1 then now else prior
      (d.filter (fun q => ¬ q.1 = p.1)) ++ [(p.1, v)])
    doc

/-- What a synchronous `NewDomainDb` call does, observably. -/
inductive CtorResult where
  | crashed
  | returned (db : Option EngineState) (err : Option Err)

/-- Synchronous `NewDomainDb` (LoadDatabasesInBackground false).  A
non-NotFound checkpoints-read error aborts with a wrapped error.  `setup`
then runs: its deferred cleanup closes every recorded reader, and calling
`Close` on a nil reader (recorded after a NotFound cached read) is a nil
interface dereference — the construction panics.  When `setup` returns an
error without panicking, the Go code's `return nil, nil` hands the caller
a nil engine together with a nil error. -/
def newDomainDbSync (env : InitEnv) (cfg : List (Str × DataSource))
    (disableDl : Bool) : CtorResult :=
  match env.cp with
  | .failed e => .returned none (some (.wrapped 10 e))
  | other =>
    let had : Bool := match other with | .found _ => true | _ => false
    let doc : CheckDoc := match other with | .found d => d | _ => []
    let out := setupLoop env had disableDl cfg ⟨.ok (), initEngineState cfg, [], []⟩
    let res :=
      match out.res with
      | .error e => Except.error e
      | .ok _ =>
        match env.writeCp with
        | .error e => Except.error (Err.wrapped 11 e)
        | .ok _ => Except.ok (mergeCheckpoints doc cfg out.updated env.now)
    if out.toClose.any (·.isNone) then .crashed
    else
      match res with
      | .error _ => .returned none none
      | .ok _ => .returned (some out.st) none

/-! ## Storage driver (`FsStorageDriver.WriteDatabase`) -/

/-- `DbNameMaxSize`.  Modelled from the spec: the constant's defining file
is not part of the sources (only its uses in `error.go` and `storage.go`
are); §4.2 fixes the maximum name length at 255 bytes. -/
def DbNameMaxSize : Nat := 255

/-- `FsStorageDriver.dbNameToFilename`: reject over-long names, otherwise
percent-escape and append `.txt` (the escaping itself is irrelevant to the
claims; the filename is name-determined). -/
def dbNameToFilename (name : Str) : Except Err Str :=
  if name.length > DbNameMaxSize then .error .dbNameTooLong
  else .ok (name ++ ".txt".toList)

/-- The two files `WriteDatabase` touches for one database name: the
target `<file>` and the backup `<file>.bak`; `none` means absent. -/
structure DbFileState where
  target : Option Str
  bak : Option Str

/-- `FsStorageDriver.WriteDatabase` for one name.  `openRes` is the
outcome of `os.OpenFile` (which creates the target empty, the previous
copy having been renamed away).  An existing target is renamed to the
backup first; on any error after that point the deferred restore renames
the backup over the target again; on success the target holds exactly the
bytes the input stream delivered. -/
def writeDatabase (name : Str) (input : ByteStream) (openRes : Option Err)
    (fs : DbFileState) : Except Err Unit × DbFileState :=
  match dbNameToFilename name with
  | .error e => (.error e, fs)
  | .ok _ =>
    let backedUp := fs.target.isSome
    let fs1 : DbFileState :=
      if backedUp then { target := none, bak := fs.target } else fs
    let restore : DbFileState → DbFileState := fun f =>
      if backedUp then { target := f.bak, bak := none } else f
    match openRes with
    | some e => (.error (.wrapped 12 e), restore fs1)
    | none =>
      match input.readErr with
      | some e => (.error (.wrapped 13 e), restore { fs1 with target := some input.data })
      | none => (.ok (), { fs1 with target := some input.data })

/-! ## Checkpoints serialization (`WriteCheckpoints` / `ReadCheckpoints`)

The checkpoint types (`AllCheckpoints`, `Checkpoint`) are modelled from
the spec: their defining file is not among the sources (only their uses
are), and §6 fixes the on-disk contract as the JSON object
`\x7b "Checkpoints": \x7b "<name>": \x7b "LastUpdatedUnix": <int> \x7d … \x7d \x7d`.
The serializer below is a model of Go's `encoding/json` encoder on that
shape (entries in the list's order; the real encoder sorts map keys, which
is immaterial here), and the parser models the decoder's behavior of
reading exactly one JSON value and leaving the rest of the file alone. -/

/-- A decimal digit character. -/
def isDigitChar (c : Char) : Bool := decide ('0' ≤ c) && decide (c ≤ '9')

/-- The character for digit `k` (`k < 10`). -/
def digitChar (k : Nat) : Char := Char.ofNat (48 + k)

/-- Lowercase hexadecimal digit character for `k < 16`. -/
def hexDigChar (k : Nat) : Char :=
  if k < 10 then Char.ofNat (48 + k) else Char.ofNat (87 + k)

/-- Value of a lowercase hexadecimal digit character. -/
def hexVal (c : Char) : Option Nat :=
  if '0' ≤ c ∧ c ≤ '9' then some (c.toNat - 48)
  else if 'a' ≤ c ∧ c ≤ 'f' then some (c.toNat - 87)
  else none

/-- Four lowercase hex digits of `n` (`n < 0x10000`). -/
def hex4 (n : Nat) : Str :=
  [hexDigChar (n / 4096 % 16), hexDigChar (n / 256 % 16),
   hexDigChar (n / 16 % 16), hexDigChar (n % 16)]

/-- JSON escaping of one character, following `encoding/json` with HTML
escaping on: quote and backslash get a backslash, newline, carriage
return and tab get their shorthands, the remaining control characters and
`<`, `>`, `&`, U+2028, U+2029 get a `\u` escape, everything else is
written raw. -/
def escChar (c : Char) : Str :=
  if c = '"' then ['\\', '"']
  else if c = '\\' then ['\\', '\\']
  else if c = '\n' then ['\\', 'n']
  else if c = '\r' then ['\\', 'r']
  else if c = '\t' then ['\\', 't']
  else if c.toNat < 0x20 ∨ c = '<' ∨ c = '>' ∨ c = '&' ∨
          c.toNat = 0x2028 ∨ c.toNat = 0x2029 then
    '\\' :: 'u' :: hex4 c.toNat
  else [c]

/-- JSON escaping of a string's characters. -/
def escapeName (s : Str) : Str := (s.map escChar).flatten

/-- Little-endian decimal digits of a number, driven by a fuel bound (any
fuel at least the value itself is enough). -/
def natDigitsRevFuel : Nat → Nat → Str
  | 0, _ => []
  | _ + 1, 0 => []
  | fuel + 1, n + 1 => digitChar ((n + 1) % 10) :: natDigitsRevFuel fuel ((n + 1) / 10)

/-- Little-endian decimal digits of a number. -/
def natDigitsRev (n : Nat) : Str := natDigitsRevFuel n n

/-- Decimal digits of a natural number. -/
def natChars (n : Nat) : Str :=
  if n = 0 then ['0'] else (natDigitsRev n).reverse

/-- Decimal representation of an integer, as `encoding/json` writes an
`int64`. -/
def intChars : Int → Str
  | .ofNat n => natChars n
  | .negSucc n => '-' :: natChars (n + 1)

/-- The fixed outer key. -/
def keyCheckpoints : Str := "Checkpoints".toList

/-- The fixed inner key. -/
def keyLastUpdated : Str := "LastUpdatedUnix".toList

/-- Serialization of one checkpoints entry. -/
def entryEnc (p : Str × Int) : Str :=
  '"' :: escapeName p.1 ++ '"' :: ':' :: lbrace :: '"' :: keyLastUpdated ++
    '"' :: ':' :: intChars p.2 ++ [rbrace]

/-- Serialization of the entries after the first: each preceded by a
comma, then the closing brace of the inner object. -/
def entriesTailEnc : CheckDoc → Str
  | [] => [rbrace]
  | p :: rest => ',' :: entryEnc p ++ entriesTailEnc rest

/-- Serialization of the inner object's contents plus its closing brace. -/
def entriesAllEnc : CheckDoc → Str
  | [] => [rbrace]
  | p :: rest => entryEnc p ++ entriesTailEnc rest

/-- Full serialization of the checkpoints document: what
`json.Encoder.Encode` writes, including its trailing newline. -/
def encodeCheckpoints (d : CheckDoc) : Str :=
  lbrace :: '"' :: keyCheckpoints ++ '"' :: ':' :: lbrace ::
    (entriesAllEnc d ++ rbrace :: ['\n'])

/-- Expect a literal character sequence; return the rest. -/
def parseLit : Str → Str → Option Str
  | [], s => some s
  | _ :: _, [] => none
  | c :: cs, x :: xs => if x = c then parseLit cs xs else none

/-- Helper: prepend a character to a parsed string body. -/
def consBody (c : Char) : Option (Str × Str) → Option (Str × Str)
  | some (b, r) => some (c :: b, r)
  | none => none

/-- Parse a JSON string body up to and including the closing quote,
undoing the escapes `escChar` produces. -/
def parseBody : Str → Option (Str × Str)
  | [] => none
  | c :: r =>
    if c = '"' then some ([], r)
    else if c = '\\' then
      match r with
      | [] => none
      | e :: r2 =>
        if e = '"' then consBody '"' (parseBody r2)
        else if e = '\\' then consBody '\\' (parseBody r2)
        else if e = 'n' then consBody '\n' (parseBody r2)
        else if e = 'r' then consBody '\r' (parseBody r2)
        else if e = 't' then consBody '\t' (parseBody r2)
        else if e = 'u' then
          match r2 with
          | h1 :: h2 :: h3 :: h4 :: r3 =>
            match hexVal h1, hexVal h2, hexVal h3, hexVal h4 with
            | some a, some b, some c3, some d4 =>
              consBody (Char.ofNat (((a * 16 + b) * 16 + c3) * 16 + d4)) (parseBody r3)
            | _, _, _, _ => none
          | _ => none
        else none
    else consBody c (parseBody r)

/-- Big-endian digit-string value. -/
def digitsToNat (l : Str) : Nat :=
  l.foldl (fun a c => a * 10 + (c.toNat - 48)) 0

/-- Parse the decimal representation of an integer. -/
def parseIntChars (l : Str) : Option Int :=
  match l with
  | '-' :: ds =>
    if ds ≠ [] ∧ ds.all isDigitChar then some (-(digitsToNat ds : Int)) else none
  | ds =>
    if ds ≠ [] ∧ ds.all isDigitChar then some ((digitsToNat ds : Int)) else none

/-- Parse one checkpoints entry (`"name":\x7b"LastUpdatedUnix":<int>\x7d`). -/
def parseEntry (s : Str) : Option ((Str × Int) × Str) :=
  match s with
  | c0 :: r0 =>
    if c0 = '"' then
      match parseBody r0 with
      | none => none
      | some (name, r1) =>
        match parseLit (':' :: lbrace :: '"' :: keyLastUpdated ++ ['"', ':']) r1 with
        | none => none
        | some r2 =>
          let num := r2.takeWhile (fun c => ¬ c = rbrace)
          let r3 := r2.dropWhile (fun c => ¬ c = rbrace)
          match parseIntChars num, r3 with
          | some v, c :: r4 => if c = rbrace then some ((name, v), r4) else none
          | _, _ => none
    else none
  | [] => none

/-- Parse the entries after the first: a comma-separated sequence ended by
the inner object's closing brace. -/
def parseEntriesTail : Nat → Str → Option (CheckDoc × Str)
  | 0, _ => none
  | fuel + 1, s =>
    match s with
    | [] => none
    | c :: r =>
      if c = rbrace then some ([], r)
      else if c = ',' then
        match parseEntry r with
        | none => none
        | some (e, r1) =>
          match parseEntriesTail fuel r1 with
          | none => none
          | some (es, r2) => some (e :: es, r2)
      else none

/-- Parse the inner object's contents after its opening brace. -/
def parseEntries (fuel : Nat) (s : Str) : Option (CheckDoc × Str) :=
  match s with
  | [] => none
  | c :: _ =>
    if c = rbrace then some ([], s.tail)
    else
      match parseEntry s with
      | none => none
      | some (e, r1) =>
        match parseEntriesTail fuel r1 with
        | none => none
        | some (es, r2) => some (e :: es, r2)

/-- Parse one checkpoints JSON value from the front of a byte sequence,
returning the document and the unread rest (`json.Decoder.Decode` reads a
single value and ignores what follows). -/
def parseCheckpoints (s : Str) : Option (CheckDoc × Str) :=
  match parseLit (lbrace :: '"' :: keyCheckpoints ++ ['"', ':', lbrace]) s with
  | none => none
  | some r =>
    match parseEntries r.length r with
    | none => none
    | some (d, r1) =>
      match r1 with
      | [] => none
      | c :: r2 => if c = rbrace then some (d, r2) else none

/-- Writing at offset 0 to a file opened with `O_CREAT|O_WRONLY` and
without `O_TRUNC`: the new bytes replace the front of the old content and
any excess old bytes survive at the end. -/
def overwriteNoTrunc (old : Option Str) (newContent : Str) : Str :=
  newContent ++ (old.getD []).drop newContent.length

/-- `FsStorageDriver.WriteCheckpoints`: encode the document and write it
from the start of `checkpoints.json` (opened `O_CREAT|O_WRONLY`, not
truncated). -/
def writeCheckpointsFile (doc : CheckDoc) (old : Option Str) : Str :=
  overwriteNoTrunc old (encodeCheckpoints doc)

/-- `FsStorageDriver.ReadCheckpoints`: absent file is NotFound; otherwise
decode one JSON value from the front of the file. -/
def readCheckpointsFile (file : Option Str) : Except Err CheckDoc :=
  match file with
  | none => .error .enoent
  | some content =>
    match parseCheckpoints content with
    | some (d, _) => .ok d
    | none => .error .badJson

/-! ## Concrete scenario data used by the claim theorems -/

/-- Little-endian value of a digit string. -/
def digitsValRev : Str → Nat
  | [] => 0
  | c :: cs => (c.toNat - 48) + 10 * digitsValRev cs

/-- The source of the C5 scenario: two URLs, both failing. -/
def c5Source : DataSource :=
  { get := none
    urlResults := [.error (.urlErr "u1".toList), .error (.urlErr "u2".toList)] }

/-- The engine state of the C5 scenario: one database whose in-memory set
was previously loaded with `old.com`. -/
def c5State : EngineState :=
  ⟨[("db".toList, { domains := ["old.com".toList], src := c5Source })]⟩

/-- The environment of the C3 scenario: checkpoints exist on disk, and the
cached database read fails with a non-NotFound error. -/
def c3Env : InitEnv :=
  { cp := .found []
    readDb := fun _ => .failed (.ioErr "disk error".toList)
    writeDb := fun _ => .ok ()
    writeCp := .ok ()
    now := 99 }

/-- The configured sources of the C3 scenario. -/
def c3Cfg : List (Str × DataSource) := [("db".toList, c5Source)]

/-- The source of the C4 scenario: one URL that downloads successfully. -/
def c4Source : DataSource := { get := none, urlResults := [.ok "a.com\n".toList] }

/-- The environment of the C4 scenario: checkpoints exist on disk but the
cached database file is absent, and the download succeeds. -/
def c4Env : InitEnv :=
  { cp := .found [("db".toList, 5)]
    readDb := fun _ => .notFound
    writeDb := fun _ => .ok ()
    writeCp := .ok ()
    now := 99 }

/-- The configured sources of the C4 scenario. -/
def c4Cfg : List (Str × DataSource) := [("db".toList, c4Source)]

/-- The stored state of the C7 example: a "disposable" database holding
the canonical form `10minutemail.com`. -/
def c7State : EngineState :=
  ⟨[("disposable".toList, ⟨["10minutemail.com".toList], ⟨none, []⟩⟩)]⟩

/-! ## Supporting lemmas: JSON round trip -/

theorem parseLit_self (lit s : Str) : parseLit lit (lit ++ s) = some s := by
  induction lit with
  | nil => rfl
  | cons c cs ih => simp [parseLit, ih]

theorem escapeName_cons (c : Char) (tl : Str) :
    escapeName (c :: tl) = escChar c ++ escapeName tl := by
  simp [escapeName]

theorem hexVal_hexDigChar : ∀ k, k < 16 → hexVal (hexDigChar k) = some k := by decide

theorem parseBody_uEsc (c : Char) (rest : Str) (hn : c.toNat < 65536) :
    parseBody ('\\' :: 'u' :: hex4 c.toNat ++ rest) = consBody c (parseBody rest) := by
  have h1 := hexVal_hexDigChar (c.toNat / 4096 % 16) (Nat.mod_lt _ (by omega))
  have h2 := hexVal_hexDigChar (c.toNat / 256 % 16) (Nat.mod_lt _ (by omega))
  have h3 := hexVal_hexDigChar (c.toNat / 16 % 16) (Nat.mod_lt _ (by omega))
  have h4 := hexVal_hexDigChar (c.toNat % 16) (Nat.mod_lt _ (by omega))
  have hrec : ((c.toNat / 4096 % 16 * 16 + c.toNat / 256 % 16) * 16 +
      c.toNat / 16 % 16) * 16 + c.toNat % 16 = c.toNat := by omega
  simp [hex4, parseBody, h1, h2, h3, h4, hrec, Char.ofNat_toNat]

theorem parseBody_escChar (c : Char) (rest : Str) :
    parseBody (escChar c ++ rest) = consBody c (parseBody rest) := by
  by_cases h1 : c = '"'
  · subst h1
    have e1 : escChar '"' ++ rest = '\\' :: '"' :: rest := rfl
    rw [e1, parseBody.eq_def]; rfl
  · by_cases h2 : c = '\\'
    · subst h2
      have e1 : escChar '\\' ++ rest = '\\' :: '\\' :: rest := rfl
      rw [e1, parseBody.eq_def]; rfl
    · by_cases h3 : c = '\n'
      · subst h3
        have e1 : escChar '\n' ++ rest = '\\' :: 'n' :: rest := rfl
        rw [e1, parseBody.eq_def]; rfl
      · by_cases h4 : c = '\r'
        · subst h4
          have e1 : escChar '\r' ++ rest = '\\' :: 'r' :: rest := rfl
          rw [e1, parseBody.eq_def]; rfl
        · by_cases h5 : c = '\t'
          · subst h5
            have e1 : escChar '\t' ++ rest = '\\' :: 't' :: rest := rfl
            rw [e1, parseBody.eq_def]; rfl
          · by_cases h6 : c.toNat < 0x20 ∨ c = '<' ∨ c = '>' ∨ c = '&' ∨
                c.toNat = 0x2028 ∨ c.toNat = 0x2029
            · have hb : c.toNat < 65536 := by
                rcases h6 with h | h | h | h | h | h
                · omega
                · subst h; decide
                · subst h; decide
                · subst h; decide
                · omega
                · omega
              have hesc : escChar c = '\\' :: 'u' :: hex4 c.toNat := by
                rw [escChar]
                simp only [h1, h2, h3, h4, h5, if_false, if_neg, not_false_iff]
                rw [if_pos h6]
              rw [hesc]
              exact parseBody_uEsc c rest hb
            · have hesc : escChar c = [c] := by
                rw [escChar]
                simp [h1, h2, h3, h4, h5, h6]
              rw [hesc]
              have e1 : [c] ++ rest = c :: rest := rfl
              rw [e1, parseBody.eq_def]
              simp only [h1, h2, if_false]

theorem parseBody_escapeName (name junk : Str) :
    parseBody (escapeName name ++ '"' :: junk) = some (name, junk) := by
  induction name with
  | nil =>
    have e1 : escapeName [] ++ '"' :: junk = '"' :: junk := rfl
    rw [e1, parseBody.eq_def]; rfl
  | cons c tl ih =>
    rw [escapeName_cons, List.append_assoc, parseBody_escChar, ih]
    rfl

theorem digitChar_props : ∀ k, k < 10 →
    (digitChar k).toNat = 48 + k ∧ isDigitChar (digitChar k) = true ∧
    ¬ digitChar k = rbrace := by decide

theorem natDigitsRevFuel_val : ∀ fuel n, n ≤ fuel →
    digitsValRev (natDigitsRevFuel fuel n) = n := by
  intro fuel
  induction fuel with
  | zero =>
    intro n h
    have : n = 0 := by omega
    subst this; rfl
  | succ f ih =>
    intro n h
    match n with
    | 0 => rfl
    | m + 1 =>
      have hd : (m + 1) / 10 ≤ f := by
        have := Nat.div_lt_self (Nat.succ_pos m) (by omega : 1 < 10)
        omega
      have hm := (digitChar_props ((m + 1) % 10) (Nat.mod_lt _ (by omega))).1
      simp [natDigitsRevFuel, digitsValRev, hm, ih _ hd]
      omega

theorem natDigitsRevFuel_digits : ∀ fuel n c, c ∈ natDigitsRevFuel fuel n →
    isDigitChar c = true ∧ ¬ c = rbrace := by
  intro fuel
  induction fuel with
  | zero => intro n c h; simp [natDigitsRevFuel] at h
  | succ f ih =>
    intro n c h
    match n with
    | 0 => simp [natDigitsRevFuel] at h
    | m + 1 =>
      simp only [natDigitsRevFuel, List.mem_cons] at h
      rcases h with h | h
      · subst h
        have := digitChar_props ((m + 1) % 10) (Nat.mod_lt _ (by omega))
        exact ⟨this.2.1, this.2.2⟩
      · exact ih _ c h

theorem digitsToNat_reverse (l : Str) : digitsToNat l.reverse = digitsValRev l := by
  induction l with
  | nil => rfl
  | cons c cs ih =>
    have : (c :: cs).reverse = cs.reverse ++ [c] := by simp
    rw [this, digitsToNat, List.foldl_append]
    rw [digitsToNat] at ih
    simp [List.foldl, ih, digitsValRev]
    ring

theorem natChars_spec (n : Nat) :
    digitsToNat (natChars n) = n ∧ (natChars n).all isDigitChar = true ∧
    natChars n ≠ [] ∧ (∀ c ∈ natChars n, ¬ c = rbrace) ∧
    (natChars n).head? ≠ some '-' := by
  by_cases h : n = 0
  · subst h; refine ⟨by decide, by decide, by decide, ?_, by decide⟩
    intro c hc
    simp [natChars] at hc
    subst hc; decide
  · have hval := natDigitsRevFuel_val n n (Nat.le_refl n)
    have hdig := natDigitsRevFuel_digits n n
    have hne : natDigitsRev n ≠ [] := by
      match n, h with
      | m + 1, _ => simp [natDigitsRev, natDigitsRevFuel]
    refine ⟨?_, ?_, ?_, ?_, ?_⟩
    · rw [natChars, if_neg h, digitsToNat_reverse]
      exact hval
    · rw [natChars, if_neg h]
      simp only [List.all_eq_true, List.mem_reverse]
      intro c hc
      exact (hdig c hc).1
    · rw [natChars, if_neg h]
      simpa using hne
    · rw [natChars, if_neg h]
      intro c hc
      rw [List.mem_reverse] at hc
      exact (hdig c hc).2
    · rw [natChars, if_neg h]
      intro hcontra
      have hmem : '-' ∈ (natDigitsRev n).reverse := by
        cases hrev : (natDigitsRev n).reverse with
        | nil => simp [hrev] at hcontra
        | cons a as =>
          rw [hrev] at hcontra
          simp at hcontra
          simp [hrev, hcontra]
      rw [List.mem_reverse] at hmem
      have := (hdig '-' hmem).1
      simp [isDigitChar] at this

theorem intChars_spec (v : Int) :
    parseIntChars (intChars v) = some v ∧ (∀ c ∈ intChars v, ¬ c = rbrace) := by
  match v with
  | .ofNat n =>
    obtain ⟨hval, hdig, hne, hbr, hhd⟩ := natChars_spec n
    constructor
    · rw [intChars, parseIntChars.eq_def]
      split
      · rename_i ds heq
        rw [heq] at hhd
        simp at hhd
      · rw [if_pos ⟨hne, hdig⟩, hval]
        rfl
    · rw [intChars]; exact hbr
  | .negSucc n =>
    obtain ⟨hval, hdig, hne, hbr, _⟩ := natChars_spec (n + 1)
    constructor
    · rw [intChars, parseIntChars.eq_def]
      split
      · rename_i ds heq
        have hds : ds = natChars (n + 1) := ((List.cons.injEq _ _ _ _).mp heq |>.2).symm
        subst hds
        rw [if_pos ⟨hne, hdig⟩, hval]
        congr 1
      · rename_i hno
        exact absurd rfl (hno (natChars (n + 1)))
    · intro c hc
      rw [intChars] at hc
      rcases List.mem_cons.mp hc with h | h
      · subst h; decide
      · exact hbr c h

theorem takeWhile_noBrace (l r : Str) (h : ∀ c ∈ l, ¬ c = rbrace) :
    (l ++ rbrace :: r).takeWhile (fun c => ¬ c = rbrace) = l ∧
    (l ++ rbrace :: r).dropWhile (fun c => ¬ c = rbrace) = rbrace :: r := by
  induction l with
  | nil => simp [List.takeWhile, List.dropWhile]
  | cons c cs ih =>
    have hc : ¬ c = rbrace := h c (List.mem_cons_self c cs)
    have ih2 := ih (fun x hx => h x (List.mem_cons_of_mem c hx))
    simp only [List.cons_append, List.takeWhile_cons, List.dropWhile_cons]
    simp_all

theorem parseEntry_entryEnc (p : Str × Int) (junk : Str) :
    parseEntry (entryEnc p ++ junk) = some (p, junk) := by
  obtain ⟨name, v⟩ := p
  obtain ⟨hint, hbr⟩ := intChars_spec v
  have hbody := parseBody_escapeName name
    (':' :: lbrace :: '"' :: keyLastUpdated ++ '"' :: ':' :: (intChars v ++ rbrace :: junk))
  have hlit := parseLit_self (':' :: lbrace :: '"' :: keyLastUpdated ++ ['"', ':'])
    (intChars v ++ rbrace :: junk)
  have hspan := takeWhile_noBrace (intChars v) junk hbr
  have hshape : entryEnc (name, v) ++ junk =
      '"' :: (escapeName name ++ '"' ::
        (':' :: lbrace :: '"' :: keyLastUpdated ++ '"' :: ':' :: (intChars v ++ rbrace :: junk))) := by
    simp [entryEnc]
  rw [hshape, parseEntry]
  simp only [if_pos rfl, hbody]
  have hlit2 : (':' :: lbrace :: '"' :: keyLastUpdated ++ '"' :: ':' :: (intChars v ++ rbrace :: junk)) =
      (':' :: lbrace :: '"' :: keyLastUpdated ++ ['"', ':']) ++ (intChars v ++ rbrace :: junk) := by
    simp
  rw [hlit2, hlit]
  simp only [hspan.1, hspan.2, hint]
  simp

theorem entriesTailEnc_longer (d : CheckDoc) : d.length < (entriesTailEnc d).length := by
  induction d with
  | nil => simp [entriesTailEnc]
  | cons p rest ih =>
    simp only [entriesTailEnc, List.length_cons, List.length_append]
    omega

theorem entriesAllEnc_longer (d : CheckDoc) : d.length ≤ (entriesAllEnc d).length := by
  cases d with
  | nil => simp [entriesAllEnc]
  | cons p rest =>
    have := entriesTailEnc_longer rest
    simp only [entriesAllEnc, List.length_cons, List.length_append]
    omega

theorem parseEntriesTail_enc :
    ∀ (rest : CheckDoc) (fuel : Nat) (junk : Str), rest.length < fuel →
    parseEntriesTail fuel (entriesTailEnc rest ++ junk) = some (rest, junk) := by
  intro rest
  induction rest with
  | nil =>
    intro fuel junk h
    match fuel, h with
    | f + 1, _ => simp [entriesTailEnc, parseEntriesTail]
  | cons p more ih =>
    intro fuel junk h
    obtain ⟨f, rfl⟩ : ∃ f, fuel = f + 1 := ⟨fuel - 1, by omega⟩
    have hshape : entriesTailEnc (p :: more) ++ junk =
        ',' :: (entryEnc p ++ (entriesTailEnc more ++ junk)) := by
      simp [entriesTailEnc]
    rw [hshape, parseEntriesTail]
    have hcomma1 : ¬ (',' : Char) = rbrace := by decide
    have hcomma2 : (',' : Char) = ',' := rfl
    simp only [if_neg hcomma1, if_pos hcomma2]
    rw [parseEntry_entryEnc p (entriesTailEnc more ++ junk)]
    have hm : more.length < f := by
      simp only [List.length_cons] at h
      omega
    simp [ih f junk hm]

theorem parseEntries_enc (d : CheckDoc) (fuel : Nat) (junk : Str) (h : d.length ≤ fuel) :
    parseEntries fuel (entriesAllEnc d ++ junk) = some (d, junk) := by
  cases d with
  | nil => simp [entriesAllEnc, parseEntries]
  | cons p rest =>
    have hshape : entriesAllEnc (p :: rest) ++ junk =
        entryEnc p ++ (entriesTailEnc rest ++ junk) := by
      simp [entriesAllEnc]
    have hq : (entryEnc p ++ (entriesTailEnc rest ++ junk)) =
        '"' :: ((escapeName p.1 ++ '"' :: ':' :: lbrace :: '"' :: keyLastUpdated ++
          '"' :: ':' :: intChars p.2 ++ [rbrace]) ++ (entriesTailEnc rest ++ junk)) := by
      simp [entryEnc]
    have hne : ¬ ('"' : Char) = rbrace := by decide
    rw [hshape, hq, parseEntries]
    simp only [if_neg hne]
    rw [← hq, parseEntry_entryEnc p (entriesTailEnc rest ++ junk)]
    have hm : rest.length < fuel := by
      simp only [List.length_cons] at h
      omega
    simp [parseEntriesTail_enc rest fuel junk hm]

theorem parseCheckpoints_encode (d : CheckDoc) (junk : Str) :
    parseCheckpoints (encodeCheckpoints d ++ junk) = some (d, '\n' :: junk) := by
  have hshape : encodeCheckpoints d ++ junk =
      (lbrace :: '"' :: keyCheckpoints ++ ['"', ':', lbrace]) ++
        (entriesAllEnc d ++ rbrace :: '\n' :: junk) := by
    simp [encodeCheckpoints]
  have hlit := parseLit_self (lbrace :: '"' :: keyCheckpoints ++ ['"', ':', lbrace])
    (entriesAllEnc d ++ rbrace :: '\n' :: junk)
  have hfuel : d.length ≤ (entriesAllEnc d ++ rbrace :: '\n' :: junk).length := by
    have := entriesAllEnc_longer d
    simp only [List.length_append, List.length_cons]
    omega
  have hent := parseEntries_enc d ((entriesAllEnc d ++ rbrace :: '\n' :: junk).length)
    (rbrace :: '\n' :: junk) hfuel
  rw [hshape, parseCheckpoints, hlit]
  show (match parseEntries (entriesAllEnc d ++ rbrace :: '\n' :: junk).length
      (entriesAllEnc d ++ rbrace :: '\n' :: junk) with
    | none => none
    | some (d, r1) =>
      match r1 with
      | [] => none
      | c :: r2 => if c = rbrace then some (d, r2) else none) = some (d, '\n' :: junk)
  rw [hent]
  simp

/-! ## Claim C1 -/

/-- C1: the claim states that after removing a single trailing FQDN dot
the normalizer rejects any remaining leading or trailing dot (as the
code's own comments and `TestNormalizeDomain_AllDotsOrEmptyLabels`
expect).  Evaluating the embedded `NormalizeDomain` at the claim's own
example inputs shows the code instead silently strips the extra dots and
accepts: `".example.com"` and `"example.com.."` both normalize
successfully to `"example.com"`. -/
theorem C1_normalizer_accepts_stray_dots :
    normalizeDomain ".example.com".toList = .ok "example.com".toList ∧
    normalizeDomain "example.com..".toList = .ok "example.com".toList := by
  exact ⟨rfl, rfl⟩

/-! ## Claim C2 -/

/-- C2 counterexample: the claim says that after `write_checkpoints(doc)`
the file's entire content is the serialization of `doc`.  Writing the
empty document over a previously written longer document leaves trailing
bytes of the old JSON behind, because `WriteCheckpoints` opens
`checkpoints.json` with `O_CREAT|O_WRONLY` and no `O_TRUNC`. -/
theorem C2_counterexample :
    writeCheckpointsFile [] (some (encodeCheckpoints [("aaaaaaaaaaaa".toList, 1)])) ≠
      encodeCheckpoints [] := by
  decide

/-- C2 amended: after `write_checkpoints(doc)` the file holds the
serialization of `doc` followed by whatever bytes of a longer previous
content survive past its length (nothing on a fresh or shorter file), and
`read_checkpoints()` still returns a document semantically equal to `doc`
because the JSON decoder reads exactly one value from the front. -/
theorem C2_write_read_checkpoints (doc : CheckDoc) (old : Option Str) :
    writeCheckpointsFile doc old =
      encodeCheckpoints doc ++ (old.getD []).drop (encodeCheckpoints doc).length ∧
    readCheckpointsFile (some (writeCheckpointsFile doc old)) = .ok doc := by
  constructor
  · rfl
  · rw [readCheckpointsFile, writeCheckpointsFile, overwriteNoTrunc,
      parseCheckpoints_encode doc ((old.getD []).drop (encodeCheckpoints doc).length)]


/-! ## Supporting lemmas: loader -/

theorem scanLoop_cons (line : Str) (rest : List Str) (acc : ScanAcc) :
    scanLoop (line :: rest) acc =
      if acc.failures.length ≥ maxFailures then acc
      else if line = [] ∨ line.head? = some '#' then scanLoop rest acc
      else
        match normalizeDomainName line with
        | .error _ => scanLoop rest { acc with failures := acc.failures ++ [line] }
        | .ok nd =>
          scanLoop rest
            { acc with domains := insertDomain nd acc.domains, good := acc.good + 1 } := by
  rw [scanLoop.eq_def]

theorem scanLoop_stop (l : List Str) (acc : ScanAcc)
    (h : acc.failures.length ≥ maxFailures) : scanLoop l acc = acc := by
  cases l with
  | nil => rfl
  | cons line rest => rw [scanLoop_cons, if_pos h]

theorem scanLoop_failures_le (l : List Str) (acc : ScanAcc)
    (h : acc.failures.length ≤ maxFailures) :
    (scanLoop l acc).failures.length ≤ maxFailures := by
  induction l generalizing acc with
  | nil => exact h
  | cons line rest ih =>
    rw [scanLoop_cons]
    by_cases h1 : acc.failures.length ≥ maxFailures
    · rw [if_pos h1]; exact h
    · rw [if_neg h1]
      by_cases h2 : line = [] ∨ line.head? = some '#'
      · rw [if_pos h2]; exact ih acc h
      · rw [if_neg h2]
        cases hn : normalizeDomainName line with
        | error e =>
          apply ih
          simp only [List.length_append, List.length_cons, List.length_nil]
          omega
        | ok nd => exact ih _ h

theorem scanLoop_append (l1 l2 : List Str) (acc : ScanAcc) :
    scanLoop (l1 ++ l2) acc = scanLoop l2 (scanLoop l1 acc) := by
  induction l1 generalizing acc with
  | nil => rfl
  | cons line rest ih =>
    rw [List.cons_append, scanLoop_cons, scanLoop_cons]
    by_cases h1 : acc.failures.length ≥ maxFailures
    · rw [if_pos h1, if_pos h1, scanLoop_stop l2 acc h1]
    · rw [if_neg h1, if_neg h1]
      by_cases h2 : line = [] ∨ line.head? = some '#'
      · rw [if_pos h2, if_pos h2, ih]
      · rw [if_neg h2, if_neg h2]
        cases hn : normalizeDomainName line with
        | error e => exact ih _
        | ok nd => exact ih _

/-! ## Claim C6 -/

/-- C6: the scan loop of `loadDomainsFromReader` records at most 10
normalization failures; once a prefix of the input has driven the failure
count to 10 the remaining lines do not change the outcome (they are not
scanned); and the load fails — with the aggregate of the recorded
failures — exactly when the failure count exceeds the good-line count,
succeeding otherwise even with some bad lines. -/
theorem C6_loader_failure_tolerance (lines pre rest : List Str) :
    (scanLoop lines scanInit).failures.length ≤ maxFailures ∧
    ((scanLoop pre scanInit).failures.length = maxFailures →
      scanLoop (pre ++ rest) scanInit = scanLoop pre scanInit) ∧
    (loadDomainsCore lines = .error (.parseFailures (scanLoop lines scanInit).failures) ↔
      (scanLoop lines scanInit).failures.length > (scanLoop lines scanInit).good) ∧
    ((scanLoop lines scanInit).failures.length ≤ (scanLoop lines scanInit).good →
      loadDomainsCore lines = .ok (scanLoop lines scanInit).domains) := by
  refine ⟨?_, ?_, ?_, ?_⟩
  · exact scanLoop_failures_le lines scanInit (by simp [scanInit, maxFailures])
  · intro h
    rw [scanLoop_append, scanLoop_stop rest _ (by omega)]
  · constructor
    · intro h
      by_contra hc
      rw [loadDomainsCore, if_neg (by omega)] at h
      exact Except.noConfusion h
    · intro h
      rw [loadDomainsCore, if_pos (by omega)]
  · intro h
    rw [loadDomainsCore, if_neg (by omega)]

/-- C6 witness: ten unparseable lines exhaust the tolerance, a further
line is not scanned, and a clean single-line input loads successfully. -/
theorem C6_loader_failure_tolerance_witness :
    (scanLoop (List.replicate 10 "..".toList) scanInit).failures.length = maxFailures ∧
    scanLoop (List.replicate 10 "..".toList ++ ["a.com".toList]) scanInit =
      scanLoop (List.replicate 10 "..".toList) scanInit ∧
    loadDomainsCore ["a.com".toList] = .ok ["a.com".toList] := by
  refine ⟨by decide, ?_, ?_⟩
  · exact (C6_loader_failure_tolerance [] (List.replicate 10 "..".toList)
      ["a.com".toList]).2.1 (by decide)
  · have h := (C6_loader_failure_tolerance ["a.com".toList] [] []).2.2.2 (by decide)
    simpa using h


/-! ## Claim C5 -/

/-- C5: the claim says a refresh that fails for any reason leaves the
in-memory set unchanged, and the spec's scenario 4 says that after a
refresh in which every URL failed, `has_domain(name, "old.com")` remains
true.  Evaluating `DownloadAndLoadDatabase` on a state whose set holds
`old.com` with both URLs failing shows the opposite: the producer closes
the pipe with the aggregate `ErrAllUrlsFailed` error, but
`loadDomainsFromReader` never checks `scanner.Err()`, so the refresh
returns success and swaps the previous set for the empty one —
`has_domain` flips from true to false. -/
theorem C5_all_urls_failed_clobbers_set :
    (pipeOfUrlResults c5Source.urlResults).readErr =
      some (.joined [.urlErr "u1".toList, .urlErr "u2".toList, .allUrlsFailed]) ∧
    downloadAndLoadDatabase (.ok ()) c5State "db".toList =
      (.ok (), ⟨[("db".toList, { domains := [], src := c5Source })]⟩) ∧
    doesDbHaveDomain c5State "db".toList "old.com".toList = .ok true ∧
    doesDbHaveDomain (downloadAndLoadDatabase (.ok ()) c5State "db".toList).2
      "db".toList "old.com".toList = .ok false := by
  exact ⟨rfl, rfl, rfl, rfl⟩

/-! ## Claim C3 -/

/-- C3: the claim (and the doc comment on `NewDomainDb`: "If error is nil,
the returned DomainDb instance will never be nil") says a failing
synchronous initialization reports a non-nil error.  Evaluating the
constructor on an environment where reading the cached database fails
with a non-NotFound error shows `setup` fails but the `return nil, nil`
branch hands the caller a nil engine together with a nil error. -/
theorem C3_setup_failure_returns_nil_nil :
    newDomainDbSync c3Env c3Cfg false = .returned none none := by
  rfl

/-! ## Claim C4 -/

/-- C4: the claim says that with checkpoints on disk and the database
absent (NotFound), a successful download lets initialization complete
without crashing.  Evaluating the constructor shows the setup body indeed
tolerates the NotFound and succeeds, but the nil reader was appended to
`toClose`, so the deferred cleanup calls `Close` on a nil interface and
the construction panics. -/
theorem C4_notfound_reader_cleanup_crashes :
    (setupLoop c4Env true false c4Cfg ⟨.ok (), initEngineState c4Cfg, [], []⟩).res = .ok () ∧
    (setupLoop c4Env true false c4Cfg ⟨.ok (), initEngineState c4Cfg, [], []⟩).toClose = [none] ∧
    newDomainDbSync c4Env c4Cfg false = .crashed := by
  exact ⟨rfl, rfl, rfl⟩

/-! ## Claim C10 -/

theorem lookupDb_initEngineState (cfg : List (Str × DataSource)) (name : Str)
    (e : DbEntry) (h : lookupDb (initEngineState cfg) name = some e) :
    e.domains = [] := by
  rw [lookupDb] at h
  rcases Option.map_eq_some'.mp h with ⟨pair, hfind, hsnd⟩
  have hmem := List.mem_of_find?_eq_some hfind
  rw [initEngineState] at hmem
  rcases List.mem_map.mp hmem with ⟨q, _, hqe⟩
  rw [← hsnd, ← hqe]

/-- C10: between construction and the first successful load (the whole
background-initialization window), every configured entry's domain set is
the empty set created by `NewDomainDb`, so `DoesDbHaveDomain` on a
configured name answers `false` with a nil error for every normalizable
domain; it never produces a "not initialized" error. -/
theorem C10_uninitialized_entries_answer_false (cfg : List (Str × DataSource))
    (name raw nd : Str) (e : DbEntry)
    (hlook : lookupDb (initEngineState cfg) name = some e)
    (hnorm : normalizeDomainName raw = .ok nd) :
    doesDbHaveDomain (initEngineState cfg) name raw = .ok false := by
  have hed := lookupDb_initEngineState cfg name e hlook
  rw [doesDbHaveDomain, hlook, hnorm]
  show Except.ok (e.domains.contains nd) = Except.ok false
  rw [hed]
  rfl

/-- C10 witness: a freshly constructed engine with one configured source
answers false (no error) for a normalizable domain. -/
theorem C10_uninitialized_entries_answer_false_witness :
    doesDbHaveDomain (initEngineState [("db".toList, ⟨none, []⟩)]) "db".toList
      "a.com".toList = .ok false := by
  exact C10_uninitialized_entries_answer_false [("db".toList, ⟨none, []⟩)]
    "db".toList "a.com".toList "a.com".toList ⟨[], ⟨none, []⟩⟩ rfl rfl


/-! ## Claim C7 -/

/-- C7: `DoesDbHaveDomain` answers "no such database" for unconfigured
names, propagates normalization errors verbatim, and otherwise answers
membership of the normalized form in the entry's set — so two raw
spellings with the same canonical form (case variants, Unicode vs
Punycode) always get the same answer; in particular
`"10MinuteMail.COM"` is found in a set storing `"10minutemail.com"`. -/
theorem C7_hasDomain_normalizes_first (st : EngineState) (name raw raw2 : Str) :
    (lookupDb st name = none →
      doesDbHaveDomain st name raw = .error (.noSuchDatabase name)) ∧
    (∀ entry e, lookupDb st name = some entry → normalizeDomainName raw = .error e →
      doesDbHaveDomain st name raw = .error e) ∧
    (∀ entry nd, lookupDb st name = some entry → normalizeDomainName raw = .ok nd →
      doesDbHaveDomain st name raw = .ok (entry.domains.contains nd)) ∧
    (normalizeDomainName raw = normalizeDomainName raw2 →
      doesDbHaveDomain st name raw = doesDbHaveDomain st name raw2) ∧
    doesDbHaveDomain c7State "disposable".toList "10MinuteMail.COM".toList = .ok true := by
  refine ⟨?_, ?_, ?_, ?_, rfl⟩
  · intro h
    rw [doesDbHaveDomain, h]
  · intro entry e h1 h2
    rw [doesDbHaveDomain, h1]
    show (match normalizeDomainName raw with
      | .error e => Except.error e
      | .ok nd => Except.ok (entry.domains.contains nd)) = Except.error e
    rw [h2]
  · intro entry nd h1 h2
    rw [doesDbHaveDomain, h1]
    show (match normalizeDomainName raw with
      | .error e => Except.error e
      | .ok nd => Except.ok (entry.domains.contains nd)) = Except.ok (entry.domains.contains nd)
    rw [h2]
  · intro h
    simp only [doesDbHaveDomain]
    rw [h]

/-- C7 witness: the unconfigured-name error, the membership answer for the
mixed-case query, and agreement of the two spellings, at concrete
inputs. -/
theorem C7_hasDomain_normalizes_first_witness :
    doesDbHaveDomain ⟨[]⟩ "db".toList "a.com".toList =
      .error (.noSuchDatabase "db".toList) ∧
    doesDbHaveDomain c7State "disposable".toList "10MinuteMail.COM".toList =
      .ok ((⟨["10minutemail.com".toList], ⟨none, []⟩⟩ : DbEntry).domains.contains
        "10minutemail.com".toList) ∧
    doesDbHaveDomain c7State "disposable".toList "10minutemail.com".toList =
      doesDbHaveDomain c7State "disposable".toList "10MinuteMail.COM".toList := by
  refine ⟨?_, ?_, ?_⟩
  · exact (C7_hasDomain_normalizes_first ⟨[]⟩ "db".toList "a.com".toList []).1 rfl
  · exact (C7_hasDomain_normalizes_first c7State "disposable".toList
      "10MinuteMail.COM".toList []).2.2.1 _ "10minutemail.com".toList rfl rfl
  · exact (C7_hasDomain_normalizes_first c7State "disposable".toList
      "10minutemail.com".toList "10MinuteMail.COM".toList).2.2.2.1 rfl

/-! ## Claim C8 -/

/-- C8: for `WriteDatabase` on a name whose target file exists: on success
the target holds exactly the bytes the input stream delivered and the
previous content sits in the backup file; on any error (name rejected,
open failure, or a stream error during the copy) the target again holds
the pre-call content, the backup having been renamed back. -/
theorem C8_writeDatabase_backup_restore (name : Str) (input : ByteStream)
    (openRes : Option Err) (fs : DbFileState) (old : Str)
    (hex : fs.target = some old) :
    (∀ u fs2, writeDatabase name input openRes fs = (.ok u, fs2) →
      fs2.target = some input.data ∧ fs2.bak = some old ∧
      input.readErr = none ∧ openRes = none) ∧
    (∀ e fs2, writeDatabase name input openRes fs = (.error e, fs2) →
      fs2.target = some old) := by
  obtain ⟨tgt, bak0⟩ := fs
  simp only at hex
  subst hex
  constructor
  · intro u fs2 h
    cases hfn : dbNameToFilename name with
    | error e => rw [writeDatabase, hfn] at h; simp at h
    | ok fn =>
      cases openRes with
      | some e2 => rw [writeDatabase, hfn] at h; simp at h
      | none =>
        cases hre : input.readErr with
        | some e2 => rw [writeDatabase, hfn, hre] at h; simp at h
        | none =>
          rw [writeDatabase, hfn, hre] at h
          simp at h
          rw [← h]
          exact ⟨rfl, rfl, rfl, rfl⟩
  · intro e fs2 h
    cases hfn : dbNameToFilename name with
    | error e3 =>
      rw [writeDatabase, hfn] at h
      simp at h
      rw [← h.2]
    | ok fn =>
      cases openRes with
      | some e2 =>
        rw [writeDatabase, hfn] at h
        simp at h
        rw [← h.2]
      | none =>
        cases hre : input.readErr with
        | some e2 =>
          rw [writeDatabase, hfn, hre] at h
          simp at h
          rw [← h.2]
        | none =>
          rw [writeDatabase, hfn, hre] at h
          simp at h

/-- C8 witness: a successful write over an existing file, applied at a
concrete stream and file state. -/
theorem C8_writeDatabase_backup_restore_witness :
    (writeDatabase "db".toList ⟨"x.com\n".toList, none⟩ none
        ⟨some "oldbytes".toList, some "oldbak".toList⟩).2.target =
      some "x.com\n".toList ∧
    (writeDatabase "db".toList ⟨"x.com\n".toList, none⟩ none
        ⟨some "oldbytes".toList, some "oldbak".toList⟩).2.bak =
      some "oldbytes".toList := by
  have h := (C8_writeDatabase_backup_restore "db".toList ⟨"x.com\n".toList, none⟩ none
    ⟨some "oldbytes".toList, some "oldbak".toList⟩ "oldbytes".toList rfl).1
    () ⟨some "x.com\n".toList, some "oldbytes".toList⟩ rfl
  exact ⟨by rw [(rfl : (writeDatabase "db".toList ⟨"x.com\n".toList, none⟩ none
      ⟨some "oldbytes".toList, some "oldbak".toList⟩).2 =
      ⟨some "x.com\n".toList, some "oldbytes".toList⟩)]; exact h.1,
    by rw [(rfl : (writeDatabase "db".toList ⟨"x.com\n".toList, none⟩ none
      ⟨some "oldbytes".toList, some "oldbak".toList⟩).2 =
      ⟨some "x.com\n".toList, some "oldbytes".toList⟩)]; exact h.2.1⟩


/-! ## Claim C9 -/

theorem errOf_eq_none_iff (r : Except Err Str) : errOf r = none ↔ ∀ e, r ≠ .error e := by
  cases r with
  | error e => simp [errOf]
  | ok b => simp [errOf]

theorem filterMap_errOf_all_failed (results : List (Except Err Str))
    (h : ∀ r ∈ results, ∃ e, r = .error e) :
    (results.filterMap errOf).length = results.length := by
  induction results with
  | nil => rfl
  | cons r rest ih =>
    obtain ⟨e, he⟩ := h r (List.mem_cons_self r rest)
    subst he
    rw [List.filterMap_cons]
    show (e :: rest.filterMap errOf).length = rest.length + 1
    rw [List.length_cons, ih (fun x hx => h x (List.mem_cons_of_mem _ hx))]

theorem filterMap_errOf_some_ok (results : List (Except Err Str)) (r : Except Err Str)
    (hmem : r ∈ results) (hok : errOf r = none) :
    (results.filterMap errOf).length < results.length := by
  induction results with
  | nil => simp at hmem
  | cons a rest ih =>
    rw [List.filterMap_cons]
    cases ha : errOf a with
    | none =>
      have := List.length_filterMap_le errOf rest
      simp only [List.length_cons]
      omega
    | some e =>
      rcases List.mem_cons.mp hmem with hr | hr
      · subst hr
        rw [ha] at hok
        exact Option.noConfusion hok
      · have := ih hr
        simp only [List.length_cons]
        omega

/-- C9: opening a URL-mode source (no `Get`, a nonempty URL list) yields
the producer pipe.  When every URL failed, the pipe is closed with the
per-URL errors joined with the `ErrAllUrlsFailed` sentinel, and a reader
reaching the end of the delivered bytes observes exactly that error on
its next read.  When at least one URL succeeded, the pipe is closed
cleanly: no read ever observes an error, so partial failures are not
surfaced to the reader. -/
theorem C9_url_failure_aggregation (src : DataSource)
    (hget : src.get = none) (hne : src.urlResults ≠ []) :
    openDataSource src = .ok (pipeOfUrlResults src.urlResults) ∧
    ((∀ r ∈ src.urlResults, ∃ e, r = .error e) →
      (pipeOfUrlResults src.urlResults).readErr =
        some (.joined (src.urlResults.filterMap errOf ++ [.allUrlsFailed])) ∧
      readAt (pipeOfUrlResults src.urlResults) (urlPipeData src.urlResults).length =
        .errRes (.joined (src.urlResults.filterMap errOf ++ [.allUrlsFailed]))) ∧
    ((∃ r ∈ src.urlResults, ∀ e, r ≠ .error e) →
      (pipeOfUrlResults src.urlResults).readErr = none ∧
      ∀ pos e2, readAt (pipeOfUrlResults src.urlResults) pos ≠ .errRes e2) := by
  refine ⟨?_, ?_, ?_⟩
  · rw [openDataSource, hget]
    rw [if_pos (by cases hu : src.urlResults with
      | nil => exact absurd hu hne
      | cons a rest => simp)]
  · intro hall
    have hlen := filterMap_errOf_all_failed src.urlResults hall
    have hre : (pipeOfUrlResults src.urlResults).readErr =
        some (.joined (src.urlResults.filterMap errOf ++ [.allUrlsFailed])) := by
      rw [pipeOfUrlResults]
      simp only [if_pos hlen]
    refine ⟨hre, ?_⟩
    rw [readAt]
    have hdata : (pipeOfUrlResults src.urlResults).data = urlPipeData src.urlResults := rfl
    rw [hdata, List.getElem?_length]
    rw [hre]
  · intro hsome
    obtain ⟨r, hmem, hr⟩ := hsome
    have hok : errOf r = none := (errOf_eq_none_iff r).mpr hr
    have hlt := filterMap_errOf_some_ok src.urlResults r hmem hok
    have hre : (pipeOfUrlResults src.urlResults).readErr = none := by
      rw [pipeOfUrlResults]
      simp only [if_neg (by omega : ¬ (src.urlResults.filterMap errOf).length =
        src.urlResults.length)]
    refine ⟨hre, ?_⟩
    intro pos e2
    rw [readAt]
    cases hg : (pipeOfUrlResults src.urlResults).data[pos]? with
    | some c => simp
    | none =>
      rw [hre]
      simp

/-- C9 witness: a two-URL source where both fail produces the aggregate
close error and the reader sees it; a source where one URL succeeds is
closed cleanly. -/
theorem C9_url_failure_aggregation_witness :
    openDataSource ⟨none, [.error (.urlErr "u1".toList), .error (.urlErr "u2".toList)]⟩ =
      .ok (pipeOfUrlResults [.error (.urlErr "u1".toList), .error (.urlErr "u2".toList)]) ∧
    (pipeOfUrlResults [.error (.urlErr "u1".toList), .error (.urlErr "u2".toList)]).readErr =
      some (.joined [.urlErr "u1".toList, .urlErr "u2".toList, .allUrlsFailed]) ∧
    (pipeOfUrlResults [.error (.urlErr "u1".toList), .ok "a.com\n".toList]).readErr = none := by
  have h1 := C9_url_failure_aggregation
    ⟨none, [.error (.urlErr "u1".toList), .error (.urlErr "u2".toList)]⟩ rfl (by simp)
  have h2 := C9_url_failure_aggregation
    ⟨none, [.error (.urlErr "u1".toList), .ok "a.com\n".toList]⟩ rfl (by simp)
  refine ⟨h1.1, ?_, ?_⟩
  · have := (h1.2.1 (by
      intro r hr
      simp only [List.mem_cons, List.not_mem_nil, or_false] at hr
      rcases hr with h | h
      · exact ⟨_, h⟩
      · exact ⟨_, h⟩)).1
    exact this
  · exact (h2.2.2 ⟨.ok "a.com\n".toList, by simp, by intro e h; exact Except.noConfusion h⟩).1

end DomainDb
